import Mathlib

set_option linter.unusedVariables false

/-!
Verification development for the `astrbot_lark_enhance` plugin.

This file gives a shallow embedding, in Lean, of the pure data logic of the
repository and proves properties about it:

* `src/lark_enhance/stores/user_memory_store.py` (`UserMemoryStore`):
  per-group / per-user memory lists with substring-based update-vs-insert
  deduplication, recency-based eviction past a cap, type-priority retrieval
  ordering and keyword deletion, behind a bounded `OrderedDict` cache of
  per-group JSON files.
* `src/lark_enhance/mixins/history.py` (`HistoryMixin._save_history`):
  debounced whole-file history persistence.
* `src/lark_enhance/mixins/lark_context.py`: a bounded user-nickname cache
  with TTL expiry and front-of-dict overflow eviction.
* `src/lark_enhance/services/streaming_card.py` (`LarkStreamingCard`):
  the streaming-card update throttle.
* `src/lark_enhance/mixins/text.py` (`TextMixin._clean_content`): message
  content cleaning driven by a JSON parse of the input.

Python floats (timestamps) are modelled as rationals `ℚ`; Python strings as
Lean `String`; Python's `in` on strings as list-infix on the character lists;
fallible effects (file writes, HTTP patches) as explicit boolean outcomes
passed in; `time.time()` as an explicit `now` argument.
-/

namespace LarkEnhance

/-! ## Python string primitives -/

/-- Python `needle in hay` on strings: contiguous substring containment. -/
def pyIn (needle hay : String) : Bool :=
  decide (needle.data <:+: hay.data)

/-- Python `s.lower()` (modelled on the ASCII range, which covers every
string the code compares against). -/
def pyLower (s : String) : String :=
  ⟨s.data.map Char.toLower⟩

/-- The whitespace characters stripped by Python `str.strip()`. -/
def isPyWhitespace (c : Char) : Bool :=
  c = ' ' || c = '\t' || c = '\n' || c = '\r' || c = '\x0b' || c = '\x0c'

/-- Python `s.strip()`: remove leading and trailing whitespace. -/
def pyStrip (s : String) : String :=
  ⟨((s.data.dropWhile isPyWhitespace).reverse.dropWhile isPyWhitespace).reverse⟩

/-- Python `s.startswith(pre)`. -/
def pyStartsWith (s pre : String) : Bool :=
  pre.data.isPrefixOf s.data

/-! ## `UserMemoryStore`: data model

A memory entry is the dict
`{"id": ..., "type": ..., "content": ..., "created_at": ..., "updated_at": ...}`
built in `add_memory` / `add_group_memory`. -/

structure Memory where
  id : String
  type : String
  content : String
  createdAt : ℚ
  updatedAt : ℚ
deriving DecidableEq, Repr

/-- `UserMemoryStore.TYPE_PRIORITY = {"instruction": 0, "preference": 1, "fact": 2, "meme": 3}`. -/
def TYPE_PRIORITY : List (String × Nat) :=
  [("instruction", 0), ("preference", 1), ("fact", 2), ("meme", 3)]

/-- `TYPE_PRIORITY.get(t, dflt)`. -/
def typePriorityGet (t : String) (dflt : Nat) : Nat :=
  (TYPE_PRIORITY.lookup t).getD dflt

/-- `memory_type in UserMemoryStore.TYPE_PRIORITY` (the validity check at the
top of `add_memory` and `add_group_memory`). -/
def isValidType (t : String) : Bool :=
  (TYPE_PRIORITY.lookup t).isSome

/-- The dedup test in the `for mem in memories` loop of `add_memory`
(lines 91-93): same type, and one content contained in the other. -/
def memMatches (m : Memory) (memoryType content : String) : Bool :=
  m.type == memoryType && (pyIn content m.content || pyIn m.content content)

/-- The `for mem in memories` loop of `add_memory` (lines 91-98): the first
entry satisfying `memMatches` has its `content` replaced and `updated_at`
refreshed; `none` when no entry matches. -/
def updateFirstMatch (ms : List Memory) (memoryType content : String) (now : ℚ) :
    Option (List Memory) :=
  match ms with
  | [] => none
  | m :: rest =>
    if memMatches m memoryType content then
      some ({ m with content := content, updatedAt := now } :: rest)
    else
      (updateFirstMatch rest memoryType content now).map (m :: ·)

/-- The key ordering used by `memories.sort(key=lambda x: x["updated_at"], reverse=True)`:
a stable descending sort by `updated_at`. -/
def recencyDesc (a b : Memory) : Bool :=
  decide (b.updatedAt ≤ a.updatedAt)

/-- Lines 109-112 of `add_memory` (and 222-225 of `add_group_memory`): when the
list exceeds the cap, sort descending by `updated_at` and keep the first
`cap` entries. -/
def evictOldest (ms : List Memory) (cap : Nat) : List Memory :=
  if ms.length > cap then (ms.mergeSort recencyDesc).take cap else ms

/-- The fresh entry appended by `add_memory` (lines 100-106); `mid` stands for
`str(uuid.uuid4())` and `now` for `time.time()`. -/
def newMemory (mid memoryType content : String) (now : ℚ) : Memory :=
  { id := mid, type := memoryType, content := content, createdAt := now, updatedAt := now }

/-- The effect of `add_memory` (lines 91-117) on the target memory list, after
the type-validity check: update the first substring-matching entry of the same
type, otherwise append a new entry and evict past the cap.  `add_group_memory`
(lines 202-230) performs the identical transformation on the group list. -/
def addMemoryList (ms : List Memory) (memoryType content mid : String) (now : ℚ)
    (cap : Nat) : List Memory :=
  match updateFirstMatch ms memoryType content now with
  | some ms2 => ms2
  | none => evictOldest (ms ++ [newMemory mid memoryType content now]) cap

/-- `if memory_type: memories = [m for m in memories if m.get("type") == memory_type]`
in `get_memories` / `delete_memories`: an empty string is falsy in Python and
disables the filter. -/
def applyTypeFilter (ms : List Memory) (mt : Option String) : List Memory :=
  match mt with
  | some t => if t = "" then ms else ms.filter (fun m => m.type == t)
  | none => ms

/-- The sort key of `get_memories` (line 137):
`(TYPE_PRIORITY.get(x["type"], 99), -x["updated_at"])`, compared
lexicographically ascending. -/
def priorityKeyLe (a b : Memory) : Bool :=
  decide (typePriorityGet a.type 99 < typePriorityGet b.type 99) ||
    (typePriorityGet a.type 99 == typePriorityGet b.type 99 &&
      decide (b.updatedAt ≤ a.updatedAt))

/-- `get_memories` (lines 131-140) / `get_group_memories` (lines 243-252) on the
already-loaded memory list: filter by type (when truthy), sort by
`(priority, -updated_at)`, take `limit`. -/
def getMemoriesList (ms : List Memory) (limit : Nat) (mt : Option String) :
    List Memory :=
  ((applyTypeFilter ms mt).mergeSort priorityKeyLe).take limit

/-- Python truthiness of the `memory_type` argument (`None` and `""` are falsy). -/
def pyTruthy (mt : Option String) : Option String :=
  match mt with
  | some t => if t = "" then none else some t
  | none => none

/-- `delete_memories` (lines 154-176) / `delete_group_memories` (lines 265-286)
on the already-loaded memory list: returns `(deleted_count, new list)`. -/
def deleteMemoriesCore (ms : List Memory) (target : String) (mt : Option String) :
    Nat × List Memory :=
  let filtered := applyTypeFilter ms mt
  let originalCount := filtered.length
  if target = "all" then
    match pyTruthy mt with
    | some t => (originalCount, ms.filter (fun m => !(m.type == t)))
    | none => (originalCount, [])
  else
    let targetLower := pyLower target
    let kept := filtered.filter (fun m => !(pyIn targetLower (pyLower m.content)))
    let deletedCount := originalCount - kept.length
    match pyTruthy mt with
    | some t => (deletedCount, ms.filter (fun m => !(m.type == t)) ++ kept)
    | none => (deletedCount, kept)

/-- Whether a memory passes the (truthy) type filter. -/
def inTypeFilter (m : Memory) (mt : Option String) : Bool :=
  match pyTruthy mt with
  | some t => m.type == t
  | none => true

/-! ## `UserMemoryStore`: cache and files

The store keeps an `OrderedDict` cache of at most `_CACHE_MAX_SIZE = 100`
group dicts and persists each group to `<data_dir>/user_memory/<safe_id>.json`.
Both the cache and the file system are modelled as insertion-ordered
association lists. -/

structure GroupData where
  users : List (String × List Memory)
  groupMemories : Option (List Memory)
  updatedAt : ℚ
deriving DecidableEq, Repr

structure Store where
  cache : List (String × GroupData)
  files : List (String × GroupData)
deriving DecidableEq, Repr

def CACHE_MAX_SIZE : Nat := 100

/-- `group_id.replace("/", "_").replace("\\", "_")` in `_get_file_path`. -/
def sanitizeGroupId (gid : String) : String :=
  String.map (fun c => if c = '/' || c = '\\' then '_' else c) gid

/-- Python `dict` deletion of a key (keys are unique in a dict). -/
def alistErase {α : Type} (l : List (String × α)) (k : String) : List (String × α) :=
  l.filter (fun p => !(p.1 == k))

/-- Python `dict` assignment: an existing key keeps its position, a new key is
appended at the end. -/
def alistSet {α : Type} (l : List (String × α)) (k : String) (v : α) :
    List (String × α) :=
  if (l.lookup k).isSome then l.map (fun p => if p.1 == k then (k, v) else p)
  else l ++ [(k, v)]

/-- The `while len(self._cache) >= self._CACHE_MAX_SIZE: self._cache.popitem(last=False)`
loop of `_set_cache`. -/
def evictCacheFront : List (String × GroupData) → List (String × GroupData)
  | [] => []
  | e :: rest =>
    if (e :: rest).length ≥ CACHE_MAX_SIZE then evictCacheFront rest else e :: rest

/-- `UserMemoryStore._set_cache`: drop an existing entry for the key, evict from
the front while full, insert at the end. -/
def setCache (c : List (String × GroupData)) (gid : String) (d : GroupData) :
    List (String × GroupData) :=
  evictCacheFront (alistErase c gid) ++ [(gid, d)]

/-- `OrderedDict.move_to_end(group_id)` on a cache hit in `_load_group_data`. -/
def cacheMoveToEnd (c : List (String × GroupData)) (gid : String) (d : GroupData) :
    List (String × GroupData) :=
  alistErase c gid ++ [(gid, d)]

/-- `UserMemoryStore._load_group_data`: cache hit moves the entry to the end;
otherwise the file (or a fresh group dict) is loaded into the cache. -/
def loadGroupData (store : Store) (gid : String) (now : ℚ) : GroupData × Store :=
  match store.cache.lookup gid with
  | some d => (d, { store with cache := cacheMoveToEnd store.cache gid d })
  | none =>
    match store.files.lookup (sanitizeGroupId gid) with
    | some d => (d, { store with cache := setCache store.cache gid d })
    | none =>
      let d : GroupData := { users := [], groupMemories := none, updatedAt := now }
      (d, { store with cache := setCache store.cache gid d })

/-- `UserMemoryStore._save_group_data`: a no-op when the group is not cached;
otherwise stamps `updated_at` and dumps the cached dict to its file. -/
def saveGroupData (store : Store) (gid : String) (now : ℚ) : Store :=
  match store.cache.lookup gid with
  | none => store
  | some d =>
    let d2 := { d with updatedAt := now }
    { cache := alistSet store.cache gid d2,
      files := alistSet store.files (sanitizeGroupId gid) d2 }

/-- `UserMemoryStore.add_memory` (lines 71-117). -/
def addMemory (store : Store) (gid uid memoryType content mid : String) (cap : Nat)
    (now : ℚ) : Bool × Store :=
  if !(isValidType memoryType) then (false, store)
  else
    let ld := loadGroupData store gid now
    let data := ld.1
    let ms := ((data.users.lookup uid).getD [])
    let ms2 := addMemoryList ms memoryType content mid now cap
    let data2 := { data with users := alistSet data.users uid ms2 }
    let s2 := { ld.2 with cache := alistSet ld.2.cache gid data2 }
    (true, saveGroupData s2 gid now)

/-- `UserMemoryStore.add_group_memory` (lines 184-230). -/
def addGroupMemory (store : Store) (gid memoryType content mid : String) (cap : Nat)
    (now : ℚ) : Bool × Store :=
  if !(isValidType memoryType) then (false, store)
  else
    let ld := loadGroupData store gid now
    let data := ld.1
    let ms := data.groupMemories.getD []
    let ms2 := addMemoryList ms memoryType content mid now cap
    let data2 := { data with groupMemories := some ms2 }
    let s2 := { ld.2 with cache := alistSet ld.2.cache gid data2 }
    (true, saveGroupData s2 gid now)

/-- `UserMemoryStore.get_memories` (lines 119-140). -/
def getMemories (store : Store) (gid uid : String) (limit : Nat) (mt : Option String)
    (now : ℚ) : List Memory × Store :=
  let ld := loadGroupData store gid now
  match ld.1.users.lookup uid with
  | none => ([], ld.2)
  | some ms => (getMemoriesList ms limit mt, ld.2)

/-- `UserMemoryStore.get_group_memories` (lines 232-252). -/
def getGroupMemories (store : Store) (gid : String) (limit : Nat) (mt : Option String)
    (now : ℚ) : List Memory × Store :=
  let ld := loadGroupData store gid now
  match ld.1.groupMemories with
  | none => ([], ld.2)
  | some ms => (getMemoriesList ms limit mt, ld.2)

/-- `UserMemoryStore.delete_memories` (lines 142-182); the file is rewritten
only when `deleted_count > 0`. -/
def deleteMemories (store : Store) (gid uid target : String) (mt : Option String)
    (now : ℚ) : Nat × Store :=
  let ld := loadGroupData store gid now
  match ld.1.users.lookup uid with
  | none => (0, ld.2)
  | some ms =>
    let res := deleteMemoriesCore ms target mt
    let data2 := { ld.1 with users := alistSet ld.1.users uid res.2 }
    let s2 := { ld.2 with cache := alistSet ld.2.cache gid data2 }
    (res.1, if res.1 > 0 then saveGroupData s2 gid now else s2)

/-- `UserMemoryStore.delete_group_memories` (lines 254-292). -/
def deleteGroupMemories (store : Store) (gid target : String) (mt : Option String)
    (now : ℚ) : Nat × Store :=
  let ld := loadGroupData store gid now
  match ld.1.groupMemories with
  | none => (0, ld.2)
  | some ms =>
    let res := deleteMemoriesCore ms target mt
    let data2 := { ld.1 with groupMemories := some res.2 }
    let s2 := { ld.2 with cache := alistSet ld.2.cache gid data2 }
    (res.1, if res.1 > 0 then saveGroupData s2 gid now else s2)

/-! ## `HistoryMixin._save_history`: debounced persistence

State of the history writer (`plugin.py` lines 82-84, `history.py` lines
100-129).  A write attempt can fail (the `except` branch only logs), so the
outcome of the `json.dump` is passed in as `writeOk`.  The pair's second
component records whether a write was attempted. -/

structure HistoryState where
  groupHistory : List (String × List String)
  lastSaveTime : ℚ
  pendingSave : Bool
  savedFile : Option (List (String × List String))
deriving DecidableEq, Repr

/-- `Main._SAVE_DEBOUNCE = 5` seconds. -/
def SAVE_DEBOUNCE : ℚ := 5

/-- `HistoryMixin._save_history` (lines 100-124): within the debounce window a
non-forced call only sets `_pending_save`; otherwise the whole history (with
empty groups dropped) is dumped, and on success `_last_save_time` and
`_pending_save` are reset. -/
def saveHistory (st : HistoryState) (force : Bool) (now : ℚ) (writeOk : Bool) :
    HistoryState × Bool :=
  if !force && decide (now - st.lastSaveTime < SAVE_DEBOUNCE) then
    ({ st with pendingSave := true }, false)
  else if writeOk then
    ({ st with
        savedFile := some (st.groupHistory.filter (fun g => !g.2.isEmpty)),
        lastSaveTime := now,
        pendingSave := false }, true)
  else (st, true)

/-- `HistoryMixin._flush_pending_save` (lines 126-129). -/
def flushPendingSave (st : HistoryState) (now : ℚ) (writeOk : Bool) :
    HistoryState × Bool :=
  if st.pendingSave then saveHistory st true now writeOk else (st, false)

/-! ## `LarkContextMixin`: the user nickname cache

`self.user_cache : OrderedDict[str, tuple[str, float]]` maps an open id to
`(nickname, cache_time)`; modelled as an insertion-ordered association list. -/

abbrev UserCache := List (String × String × ℚ)

/-- `Main._CACHE_TTL = 300` seconds. -/
def CACHE_TTL : ℚ := 300

/-- `Main._USER_CACHE_MAX_SIZE = 5000`. -/
def USER_CACHE_MAX_SIZE : Nat := 5000

/-- `LarkContextMixin._is_cache_valid`: `time.time() - cache_time < self._CACHE_TTL`. -/
def isCacheValid (now cacheTime : ℚ) : Bool :=
  decide (now - cacheTime < CACHE_TTL)

/-- Deletion of a key from the ordered dict (`del self.user_cache[open_id]`). -/
def userCacheErase (c : UserCache) (oid : String) : UserCache :=
  c.filter (fun e => !(e.1 == oid))

/-- `LarkContextMixin._get_user_from_cache` (lines 35-43): a hit within the TTL
is moved to the end (LRU refresh) and returned; an expired entry is deleted. -/
def getUserFromCache (c : UserCache) (oid : String) (now : ℚ) :
    Option String × UserCache :=
  match c.lookup oid with
  | none => (none, c)
  | some e =>
    if isCacheValid now e.2 then (some e.1, userCacheErase c oid ++ [(oid, e.1, e.2)])
    else (none, userCacheErase c oid)

/-- The `while len(self.user_cache) >= self._USER_CACHE_MAX_SIZE: popitem(last=False)`
loop of `_set_user_cache`. -/
def evictUserCacheFront : UserCache → UserCache
  | [] => []
  | e :: rest =>
    if (e :: rest).length ≥ USER_CACHE_MAX_SIZE then evictUserCacheFront rest
    else e :: rest

/-- `LarkContextMixin._set_user_cache` (lines 45-53). -/
def setUserCache (c : UserCache) (oid nick : String) (now : ℚ) : UserCache :=
  evictUserCacheFront (userCacheErase c oid) ++ [(oid, nick, now)]

/-! ## `LarkStreamingCard.update_card`: the streaming-update throttle -/

structure CardState where
  cardMessageId : Option String
  contentBuffer : String
  lastUpdateTime : ℚ
  lastUpdateLength : Nat
deriving DecidableEq, Repr

/-- `LarkStreamingCard.UPDATE_INTERVAL = 0.3`. -/
def UPDATE_INTERVAL : ℚ := 3 / 10

/-- `LarkStreamingCard.MIN_UPDATE_CHARS = 5`. -/
def MIN_UPDATE_CHARS : Nat := 5

structure CardUpdateResult where
  returned : Bool
  state : CardState
  attemptedPatch : Bool
deriving DecidableEq, Repr

/-- `LarkStreamingCard.update_card` (lines 130-167).  `patchOk` is the outcome
of the patch request (`response.success()`, with exceptions folded into
failure); `attemptedPatch` records whether a patch request was issued. -/
def updateCard (st : CardState) (text : String) (force : Bool) (now : ℚ)
    (patchOk : Bool) : CardUpdateResult :=
  match st.cardMessageId with
  | none => { returned := false, state := st, attemptedPatch := false }
  | some _ =>
    let st1 := { st with contentBuffer := text }
    if !force && decide (now - st.lastUpdateTime < UPDATE_INTERVAL)
        && decide ((text.length : ℤ) - (st.lastUpdateLength : ℤ) < (MIN_UPDATE_CHARS : ℤ)) then
      { returned := true, state := st1, attemptedPatch := false }
    else if patchOk then
      { returned := true,
        state := { st1 with lastUpdateTime := now, lastUpdateLength := text.length },
        attemptedPatch := true }
    else { returned := false, state := st1, attemptedPatch := true }

/-! ## `TextMixin._clean_content`

The cleaning logic dispatches on the result of `json.loads`; the parser itself
is external (`json` module), so it enters the model as a function argument
`parse : String → Option Json`.  `_extract_text_from_data` and `_clean_content`
are mutually recursive in the source (a nested `text` field that again looks
like serialized JSON is cleaned recursively); the Lean model adds an explicit
`fuel` argument that every call consumes, with `none` standing for a
non-returning call (an uncaught exception, or fuel exhaustion). -/

inductive Json where
  | null : Json
  | bool : Bool → Json
  | num : ℚ → Json
  | str : String → Json
  | arr : List Json → Json
  | obj : List (String × Json) → Json
deriving Repr

/-- `Main._CLEAN_CONTENT_MAX_LEN = 10000`. -/
def CLEAN_CONTENT_MAX_LEN : Nat := 10000

/-- The `valid_types` set of `_is_astrbot_message_format`. -/
def VALID_TYPES : List String :=
  ["text", "image", "at", "plain", "face", "record", "video", "file"]

/-- The `for item in data` loop of `_is_astrbot_message_format` (lines 54-58).
Python computes `item.get("type", "").lower()`; when the `"type"` value is not
a string this raises `AttributeError`, modelled as `Except.error`. -/
def checkItems : List Json → Except Unit Bool
  | [] => .ok false
  | item :: rest =>
    match item with
    | .obj kvs =>
      match kvs.lookup "type" with
      | some (.str v) =>
        if VALID_TYPES.contains (pyLower v) then .ok true else checkItems rest
      | some _ => .error ()
      | none => checkItems rest
    | _ => checkItems rest

/-- `TextMixin._is_astrbot_message_format` (lines 45-60). -/
def isAstrbotMessageFormat (data : Json) : Except Unit Bool :=
  match data with
  | .arr [] => .ok false
  | .arr items => checkItems items
  | _ => .ok false

mutual

/-- Python `repr` of a value decoded from JSON (used via `str()` on
containers); the exact text never matters to the verified properties. -/
def pyRepr : Json → String
  | .null => "None"
  | .bool true => "True"
  | .bool false => "False"
  | .num q => toString q
  | .str s => "'" ++ s ++ "'"
  | .arr xs => "[" ++ pyReprArr xs ++ "]"
  | .obj kvs => "\x7b" ++ pyReprObj kvs ++ "\x7d"

/-- Comma-joined `repr`s of the elements of a decoded JSON array. -/
def pyReprArr : List Json → String
  | [] => ""
  | [x] => pyRepr x
  | x :: xs => pyRepr x ++ ", " ++ pyReprArr xs

/-- Comma-joined `'key': repr(value)` pairs of a decoded JSON object. -/
def pyReprObj : List (String × Json) → String
  | [] => ""
  | [(k, v)] => "'" ++ k ++ "': " ++ pyRepr v
  | (k, v) :: rest => "'" ++ k ++ "': " ++ pyRepr v ++ ", " ++ pyReprObj rest

end

/-- Python `str()` of a value decoded from JSON (the `return str(text_value)`
branch of `_extract_text_from_data`). -/
def pyStr (j : Json) : String :=
  match j with
  | .str s => s
  | _ => pyRepr j

/-- One pending call in the mutually recursive `_clean_content` /
`_extract_text_from_data` pair: cleaning a string, extracting from a JSON
value, or iterating the items of a list / the values of a dict. -/
inductive CleanCall where
  | clean (s : String)
  | extract (j : Json) (depth : Nat)
  | extractArr (items : List Json) (depth : Nat)
  | extractObj (kvs : List (String × Json)) (depth : Nat)

/-- Combined fueled interpreter for `_clean_content` (lines 21-43) and
`_extract_text_from_data` (lines 62-91), which recurse into one another (a
nested `text` field that again looks like serialized JSON is cleaned
recursively).  Every recursive call consumes one unit of fuel; `none` stands
for a call that does not return normally (an uncaught exception, or exhausted
fuel). -/
def cleanRun (parse : String → Option Json) : Nat → CleanCall → Option String
  | 0, _ => none
  | fuel + 1, .clean s =>
    if s = "" then some s
    else
      if (pyStrip s).length > CLEAN_CONTENT_MAX_LEN then some (pyStrip s)
      else if !(pyStartsWith (pyStrip s) "[") then some (pyStrip s)
      else
        match parse (pyStrip s) with
        | none => some (pyStrip s)
        | some data =>
          match isAstrbotMessageFormat data with
          | .error _ => none
          | .ok false => some (pyStrip s)
          | .ok true =>
            match cleanRun parse fuel (.extract data 0) with
            | none => none
            | some r => some (if r = "" then pyStrip s else r)
  | fuel + 1, .extract data depth =>
    if depth > 10 then some ""
    else
      match data with
      | .arr items => cleanRun parse fuel (.extractArr items depth)
      | .obj kvs =>
        match kvs.lookup "text" with
        | some tv =>
          match tv with
          | .str v =>
            if pyStartsWith (pyStrip v) "[" || pyStartsWith (pyStrip v) "\x7b" then
              cleanRun parse fuel (.clean v)
            else some v
          | _ => some (pyStr tv)
        | none => cleanRun parse fuel (.extractObj kvs depth)
      | .str v =>
        if pyStartsWith (pyStrip v) "[" || pyStartsWith (pyStrip v) "\x7b" then
          cleanRun parse fuel (.clean v)
        else some v
      | _ => some ""
  | fuel + 1, .extractArr items depth =>
    match items with
    | [] => some ""
    | item :: rest =>
      match cleanRun parse fuel (.extract item (depth + 1)) with
      | none => none
      | some r =>
        (cleanRun parse fuel (.extractArr rest depth)).map (fun acc => r ++ acc)
  | fuel + 1, .extractObj kvs depth =>
    match kvs with
    | [] => some ""
    | kv :: rest =>
      match kv.2 with
      | .arr _ =>
        match cleanRun parse fuel (.extract kv.2 (depth + 1)) with
        | none => none
        | some r =>
          (cleanRun parse fuel (.extractObj rest depth)).map (fun acc => r ++ acc)
      | .obj _ =>
        match cleanRun parse fuel (.extract kv.2 (depth + 1)) with
        | none => none
        | some r =>
          (cleanRun parse fuel (.extractObj rest depth)).map (fun acc => r ++ acc)
      | _ => cleanRun parse fuel (.extractObj rest depth)

/-- `TextMixin._clean_content` (lines 21-43). -/
def cleanContentF (parse : String → Option Json) (fuel : Nat) (s : String) :
    Option String :=
  cleanRun parse fuel (.clean s)

/-- `TextMixin._extract_text_from_data` (lines 62-91). -/
def extractTextF (parse : String → Option Json) (fuel : Nat) (j : Json)
    (depth : Nat) : Option String :=
  cleanRun parse fuel (.extract j depth)

/-! ## Concrete example values used in witnesses and counterexamples -/

def exFact : Memory :=
  { id := "a", type := "fact", content := "alpha", createdAt := 1, updatedAt := 1 }

def exMeme : Memory :=
  { id := "b", type := "meme", content := "beta", createdAt := 2, updatedAt := 2 }

def exInstr : Memory :=
  { id := "i", type := "instruction", content := "rule", createdAt := 1, updatedAt := 1 }

def emptyStore : Store := { cache := [], files := [] }

def badJson : Json := Json.arr [Json.obj [("type", Json.num 5)]]

def badStr : String := "[\x7b\"type\": 5\x7d]"

def exParse : String → Option Json := fun s => if s = badStr then some badJson else none

def exCard : CardState :=
  { cardMessageId := some "m", contentBuffer := "", lastUpdateTime := 0,
    lastUpdateLength := 0 }

/-! ## General lemmas about the memory-store operations -/

theorem updateFirstMatch_eq_none {ms : List Memory} {t c : String} {now : ℚ} :
    updateFirstMatch ms t c now = none ↔
      ms.any (fun m => memMatches m t c) = false := by
  induction ms with
  | nil => simp [updateFirstMatch]
  | cons m rest ih =>
    cases h : memMatches m t c with
    | true => simp [updateFirstMatch, h]
    | false => simp [updateFirstMatch, h, Option.map_eq_none', ih]

theorem updateFirstMatch_eq_some {ms ms2 : List Memory} {t c : String} {now : ℚ}
    (h : updateFirstMatch ms t c now = some ms2) :
    ∃ pre m post, ms = pre ++ m :: post ∧
      (∀ m2 ∈ pre, memMatches m2 t c = false) ∧
      memMatches m t c = true ∧
      ms2 = pre ++ { m with content := c, updatedAt := now } :: post := by
  induction ms generalizing ms2 with
  | nil => simp [updateFirstMatch] at h
  | cons m rest ih =>
    cases hm : memMatches m t c with
    | true =>
      refine ⟨[], m, rest, rfl, by simp, hm, ?_⟩
      simp only [updateFirstMatch, hm, if_pos] at h
      simpa using h.symm
    | false =>
      simp only [updateFirstMatch, hm, Bool.false_eq_true, if_neg, not_false_iff,
        Option.map_eq_some'] at h
      obtain ⟨a, ha, heq⟩ := h
      obtain ⟨pre, mm, post, hms, hpre, hmm, ha2⟩ := ih ha
      refine ⟨m :: pre, mm, post, by simp [hms], ?_, hmm, by simp [← heq, ha2]⟩
      intro m2 hm2
      rcases List.mem_cons.mp hm2 with h2 | h2
      · exact h2 ▸ hm
      · exact hpre m2 h2

theorem recencyDesc_trans (a b c : Memory) :
    recencyDesc a b = true → recencyDesc b c = true → recencyDesc a c = true := by
  simp only [recencyDesc, decide_eq_true_eq]
  exact fun h1 h2 => le_trans h2 h1

theorem recencyDesc_total (a b : Memory) :
    (recencyDesc a b || recencyDesc b a) = true := by
  simp only [recencyDesc, Bool.or_eq_true, decide_eq_true_eq]
  exact le_total b.updatedAt a.updatedAt

theorem evictOldest_length_le (ms : List Memory) (cap : Nat) :
    (evictOldest ms cap).length ≤ cap := by
  unfold evictOldest
  split
  · simp
  · omega

theorem evictOldest_retained (ms : List Memory) (cap : Nat)
    (x : Memory) (hx : x ∈ evictOldest ms cap)
    (y : Memory) (hy : y ∈ ms) (hny : y ∉ evictOldest ms cap) :
    y.updatedAt ≤ x.updatedAt := by
  unfold evictOldest at hx hny
  by_cases hover : ms.length > cap
  · rw [if_pos hover] at hx hny
    have hsorted : (ms.mergeSort recencyDesc).Pairwise
        (fun a b => recencyDesc a b = true) :=
      List.sorted_mergeSort recencyDesc_trans recencyDesc_total ms
    have hsplit :
        (ms.mergeSort recencyDesc).take cap ++ (ms.mergeSort recencyDesc).drop cap
          = ms.mergeSort recencyDesc := List.take_append_drop cap _
    have hy2 : y ∈ ms.mergeSort recencyDesc := by
      exact List.mem_mergeSort.mpr hy
    have hydrop : y ∈ (ms.mergeSort recencyDesc).drop cap := by
      rcases List.mem_append.mp (by rw [hsplit]; exact hy2) with h | h
      · exact absurd h hny
      · exact h
    have hpw := hsplit ▸ hsorted
    have hcross := (List.pairwise_append.mp hpw).2.2 x hx y hydrop
    simpa [recencyDesc] using hcross
  · rw [if_neg hover] at hx hny
    exact absurd hy hny

theorem addMemoryList_of_any_eq_false
    {ms : List Memory} {t c mid : String} {now : ℚ} {cap : Nat}
    (h : ms.any (fun m => memMatches m t c) = false) :
    addMemoryList ms t c mid now cap =
      evictOldest (ms ++ [newMemory mid t c now]) cap := by
  unfold addMemoryList
  rw [updateFirstMatch_eq_none.mpr h]

/-- C1: with a valid memory type, `add_memory` / `add_group_memory` replace the
content (and refresh `updated_at`) of the first existing entry of the same type
related to the new content by substring containment, keeping the number of
entries unchanged, and return `True`; when no such entry exists a new entry is
appended (followed by the cap eviction, which does nothing when the list was
below the cap). -/
theorem add_memory_dedup_insert_spec
    (ms : List Memory) (memoryType content mid : String) (now : ℚ) (cap : Nat)
    (hvalid : isValidType memoryType = true) :
    (ms.any (fun m => memMatches m memoryType content) = true →
      ∃ pre m post, ms = pre ++ m :: post ∧
        (∀ m2 ∈ pre, memMatches m2 memoryType content = false) ∧
        memMatches m memoryType content = true ∧
        addMemoryList ms memoryType content mid now cap =
          pre ++ { m with content := content, updatedAt := now } :: post ∧
        (addMemoryList ms memoryType content mid now cap).length = ms.length) ∧
    (ms.any (fun m => memMatches m memoryType content) = false →
      addMemoryList ms memoryType content mid now cap =
        evictOldest (ms ++ [newMemory mid memoryType content now]) cap ∧
      (ms.length < cap →
        addMemoryList ms memoryType content mid now cap =
          ms ++ [newMemory mid memoryType content now])) ∧
    (∀ store gid uid,
      (addMemory store gid uid memoryType content mid cap now).1 = true) ∧
    (∀ store gid,
      (addGroupMemory store gid memoryType content mid cap now).1 = true) := by
  refine ⟨?_, ?_, ?_, ?_⟩
  · intro hany
    cases hu : updateFirstMatch ms memoryType content now with
    | none => rw [updateFirstMatch_eq_none.mp hu] at hany; exact absurd hany (by simp)
    | some ms2 =>
      obtain ⟨pre, m, post, hms, hpre, hm, hms2⟩ := updateFirstMatch_eq_some hu
      have hadd : addMemoryList ms memoryType content mid now cap = ms2 := by
        unfold addMemoryList
        rw [hu]
      refine ⟨pre, m, post, hms, hpre, hm, by rw [hadd, hms2], ?_⟩
      rw [hadd, hms2, hms]
      simp
  · intro hany
    have he : addMemoryList ms memoryType content mid now cap =
        evictOldest (ms ++ [newMemory mid memoryType content now]) cap :=
      addMemoryList_of_any_eq_false hany
    refine ⟨he, fun hlt => ?_⟩
    rw [he]
    unfold evictOldest
    rw [if_neg (by simp; omega)]
  · intro store gid uid
    simp [addMemory, hvalid]
  · intro store gid
    simp [addGroupMemory, hvalid]

theorem add_memory_dedup_insert_witness :
    isValidType "fact" = true ∧
    (addMemory emptyStore "g" "u" "fact" "alpha" "c" 3 1).1 = true :=
  ⟨by decide,
    (add_memory_dedup_insert_spec [] "fact" "alpha" "c" 1 3 (by decide)).2.2.1
      emptyStore "g" "u"⟩

theorem addMemoryList_length_update
    {ms : List Memory} {t c mid : String} {now : ℚ} {cap : Nat}
    (h : ms.any (fun m => memMatches m t c) = true) :
    (addMemoryList ms t c mid now cap).length = ms.length := by
  cases hu : updateFirstMatch ms t c now with
  | none => rw [updateFirstMatch_eq_none.mp hu] at h; exact absurd h (by simp)
  | some ms2 =>
    obtain ⟨pre, m, post, hms, _, _, hms2⟩ := updateFirstMatch_eq_some hu
    have hadd : addMemoryList ms t c mid now cap = ms2 := by
      unfold addMemoryList
      rw [hu]
    rw [hadd, hms2, hms]
    simp

/-- C2 counterexample: the claim asserts that after every `add_memory` call the
list holds at most the cap many entries; but a call that takes the
substring-update path performs no eviction, so a list of 2 entries submitted
with cap 1 still holds 2 entries afterwards. -/
theorem add_memory_cap_counterexample :
    ¬ ((addMemoryList [exFact, exMeme] "fact" "alpha" "c" 3 1).length ≤ 1) := by
  decide

/-- C2 (amended): when an `add_memory` / `add_group_memory` call appends a new
entry (no substring match), the resulting list holds at most the cap many
entries and every evicted entry's `updated_at` is at most every retained
entry's `updated_at`; on the substring-update path the list size is unchanged
(and may stay above the cap). -/
theorem add_memory_cap_spec
    (ms : List Memory) (memoryType content mid : String) (now : ℚ) (cap : Nat)
    (hvalid : isValidType memoryType = true) :
    (ms.any (fun m => memMatches m memoryType content) = false →
      (addMemoryList ms memoryType content mid now cap).length ≤ cap ∧
      (∀ x ∈ addMemoryList ms memoryType content mid now cap,
        ∀ y ∈ ms ++ [newMemory mid memoryType content now],
          y ∉ addMemoryList ms memoryType content mid now cap →
            y.updatedAt ≤ x.updatedAt)) ∧
    (ms.any (fun m => memMatches m memoryType content) = true →
      (addMemoryList ms memoryType content mid now cap).length = ms.length) := by
  constructor
  · intro hins
    rw [addMemoryList_of_any_eq_false hins]
    exact ⟨evictOldest_length_le _ _, fun x hx y hy hny =>
      evictOldest_retained _ cap x hx y hy hny⟩
  · exact addMemoryList_length_update

theorem add_memory_cap_witness :
    isValidType "meme" = true ∧
    ([exFact].any (fun m => memMatches m "meme" "x") = false) ∧
    (addMemoryList [exFact] "meme" "x" "m" 5 2).length ≤ 2 :=
  ⟨by decide, by decide,
    ((add_memory_cap_spec [exFact] "meme" "x" "m" 5 2 (by decide)).1 (by decide)).1⟩

/-- C8 counterexample: the spec says eviction retains entries according to the
type-priority order (`instruction` before `meme`); but on this input the
evicted entry is the `instruction` (priority 0, older) and the retained entry
is the `meme` (priority 3, newer): eviction sorts by `updated_at`, not by type
priority. -/
theorem add_memory_eviction_priority_counterexample :
    addMemoryList [exInstr] "meme" "joke" "m" 2 1 = [newMemory "m" "meme" "joke" 2] ∧
    exInstr ∉ addMemoryList [exInstr] "meme" "joke" "m" 2 1 ∧
    typePriorityGet "instruction" 99 < typePriorityGet "meme" 99 := by
  have hres : addMemoryList [exInstr] "meme" "joke" "m" 2 1 =
      evictOldest ([exInstr] ++ [newMemory "m" "meme" "joke" 2]) 1 :=
    addMemoryList_of_any_eq_false (by decide)
  have hlen : (evictOldest ([exInstr] ++ [newMemory "m" "meme" "joke" 2]) 1).length = 1 := by
    unfold evictOldest
    rw [if_pos (by decide)]
    simp
  have hsub : ∀ x ∈ evictOldest ([exInstr] ++ [newMemory "m" "meme" "joke" 2]) 1,
      x ∈ [exInstr] ++ [newMemory "m" "meme" "joke" 2] := by
    intro x hx
    unfold evictOldest at hx
    rw [if_pos (by decide)] at hx
    exact List.mem_mergeSort.mp ((List.take_sublist _ _).mem hx)
  obtain ⟨a, ha⟩ := List.length_eq_one.mp hlen
  have hamem : a ∈ [exInstr] ++ [newMemory "m" "meme" "joke" 2] := by
    exact hsub a (by rw [ha]; exact List.mem_singleton_self a)
  have hcase : a = exInstr ∨ a = newMemory "m" "meme" "joke" 2 := by
    simpa using hamem
  have hne : a = newMemory "m" "meme" "joke" 2 := by
    rcases hcase with h | h
    · exfalso
      have hretained := evictOldest_retained ([exInstr] ++ [newMemory "m" "meme" "joke" 2]) 1
        exInstr (by rw [ha, h]; exact List.mem_singleton_self _)
        (newMemory "m" "meme" "joke" 2) (by decide)
        (by rw [ha, h]; decide)
      revert hretained
      decide
    · exact h
  rw [hres, ha, hne]
  refine ⟨rfl, by decide, by decide⟩

/-- C8 (amended): when `add_memory` / `add_group_memory` must evict because the
cap is exceeded, the set of retained entries is the first `cap` entries of the
list sorted descending by `updated_at` (most recent kept) — not by
type-priority order. -/
theorem add_memory_eviction_recency_spec
    (ms : List Memory) (memoryType content mid : String) (now : ℚ) (cap : Nat)
    (hins : ms.any (fun m => memMatches m memoryType content) = false)
    (hover : cap < (ms ++ [newMemory mid memoryType content now]).length) :
    addMemoryList ms memoryType content mid now cap =
      ((ms ++ [newMemory mid memoryType content now]).mergeSort recencyDesc).take cap ∧
    ((ms ++ [newMemory mid memoryType content now]).mergeSort recencyDesc).Pairwise
      (fun a b => b.updatedAt ≤ a.updatedAt) := by
  constructor
  · rw [addMemoryList_of_any_eq_false hins]
    unfold evictOldest
    rw [if_pos hover]
  · exact List.Pairwise.imp (by simp [recencyDesc])
      (List.sorted_mergeSort recencyDesc_trans recencyDesc_total _)

theorem add_memory_eviction_recency_witness :
    ([exInstr].any (fun m => memMatches m "meme" "joke") = false) ∧
    1 < ([exInstr] ++ [newMemory "m" "meme" "joke" 2]).length ∧
    addMemoryList [exInstr] "meme" "joke" "m" 2 1 =
      (([exInstr] ++ [newMemory "m" "meme" "joke" 2]).mergeSort recencyDesc).take 1 :=
  ⟨by decide, by decide,
    (add_memory_eviction_recency_spec [exInstr] "meme" "joke" "m" 2 1
      (by decide) (by decide)).1⟩

theorem priorityKeyLe_iff (a b : Memory) :
    priorityKeyLe a b = true ↔
      (typePriorityGet a.type 99 < typePriorityGet b.type 99 ∨
        (typePriorityGet a.type 99 = typePriorityGet b.type 99 ∧
          b.updatedAt ≤ a.updatedAt)) := by
  simp [priorityKeyLe]

theorem priorityKeyLe_trans (a b c : Memory) :
    priorityKeyLe a b = true → priorityKeyLe b c = true → priorityKeyLe a c = true := by
  simp only [priorityKeyLe_iff]
  rintro (h1 | ⟨h1, h1u⟩) (h2 | ⟨h2, h2u⟩)
  · exact Or.inl (lt_trans h1 h2)
  · exact Or.inl (h2 ▸ h1)
  · exact Or.inl (h1 ▸ h2)
  · exact Or.inr ⟨h1.trans h2, le_trans h2u h1u⟩

theorem priorityKeyLe_total (a b : Memory) :
    (priorityKeyLe a b || priorityKeyLe b a) = true := by
  simp only [Bool.or_eq_true, priorityKeyLe_iff]
  rcases lt_trichotomy (typePriorityGet a.type 99) (typePriorityGet b.type 99) with h | h | h
  · exact Or.inl (Or.inl h)
  · rcases le_total b.updatedAt a.updatedAt with hu | hu
    · exact Or.inl (Or.inr ⟨h, hu⟩)
    · exact Or.inr (Or.inr ⟨h.symm, hu⟩)
  · exact Or.inr (Or.inl h)

theorem getMemoriesList_length_le (ms : List Memory) (limit : Nat) (mt : Option String) :
    (getMemoriesList ms limit mt).length ≤ limit := by
  unfold getMemoriesList
  simp

theorem getMemoriesList_type_filter (ms : List Memory) (limit : Nat) (t : String)
    (ht : t ≠ "") :
    ∀ m ∈ getMemoriesList ms limit (some t), m.type = t := by
  intro m hm
  unfold getMemoriesList applyTypeFilter at hm
  simp only [if_neg ht] at hm
  have hmem : m ∈ (ms.filter (fun m => m.type == t)).mergeSort priorityKeyLe :=
    (List.take_sublist _ _).mem hm
  have := List.of_mem_filter (List.mem_mergeSort.mp hmem)
  simpa using this

theorem getMemoriesList_sorted (ms : List Memory) (limit : Nat) (mt : Option String) :
    (getMemoriesList ms limit mt).Pairwise (fun a b => priorityKeyLe a b = true) := by
  unfold getMemoriesList
  exact List.Pairwise.sublist (List.take_sublist _ _)
    (List.sorted_mergeSort priorityKeyLe_trans priorityKeyLe_total _)

theorem getMemories_fst (store : Store) (gid uid : String) (limit : Nat)
    (mt : Option String) (now : ℚ) :
    (getMemories store gid uid limit mt now).1 =
      getMemoriesList (((loadGroupData store gid now).1.users.lookup uid).getD [])
        limit mt := by
  unfold getMemories
  cases h : (loadGroupData store gid now).1.users.lookup uid with
  | none => simp [h, getMemoriesList, applyTypeFilter]; cases mt <;> simp
  | some ms => simp [h]

theorem getGroupMemories_fst (store : Store) (gid : String) (limit : Nat)
    (mt : Option String) (now : ℚ) :
    (getGroupMemories store gid limit mt now).1 =
      getMemoriesList (((loadGroupData store gid now).1.groupMemories).getD [])
        limit mt := by
  unfold getGroupMemories
  cases h : (loadGroupData store gid now).1.groupMemories with
  | none => simp [h, getMemoriesList, applyTypeFilter]; cases mt <;> simp
  | some ms => simp [h]

/-- C3: `get_memories` / `get_group_memories` return at most `limit` entries,
restricted to the requested type when a (truthy) filter is given, sorted by the
key `(TYPE_PRIORITY.get(type, 99), -updated_at)`: ascending type priority
(`instruction < preference < fact < meme`), then larger `updated_at` first. -/
theorem get_memories_order_spec (store : Store) (gid uid : String) (limit : Nat)
    (mt : Option String) (now : ℚ) :
    ((getMemories store gid uid limit mt now).1.length ≤ limit ∧
      (∀ t, mt = some t → t ≠ "" →
        ∀ m ∈ (getMemories store gid uid limit mt now).1, m.type = t) ∧
      (getMemories store gid uid limit mt now).1.Pairwise
        (fun a b => priorityKeyLe a b = true)) ∧
    ((getGroupMemories store gid limit mt now).1.length ≤ limit ∧
      (∀ t, mt = some t → t ≠ "" →
        ∀ m ∈ (getGroupMemories store gid limit mt now).1, m.type = t) ∧
      (getGroupMemories store gid limit mt now).1.Pairwise
        (fun a b => priorityKeyLe a b = true)) ∧
    (∀ a b : Memory, priorityKeyLe a b = true ↔
      (typePriorityGet a.type 99 < typePriorityGet b.type 99 ∨
        (typePriorityGet a.type 99 = typePriorityGet b.type 99 ∧
          b.updatedAt ≤ a.updatedAt))) ∧
    typePriorityGet "instruction" 99 < typePriorityGet "preference" 99 ∧
    typePriorityGet "preference" 99 < typePriorityGet "fact" 99 ∧
    typePriorityGet "fact" 99 < typePriorityGet "meme" 99 := by
  refine ⟨?_, ?_, priorityKeyLe_iff, by decide, by decide, by decide⟩
  · rw [getMemories_fst]
    refine ⟨getMemoriesList_length_le _ _ _, ?_, getMemoriesList_sorted _ _ _⟩
    rintro t rfl ht
    exact getMemoriesList_type_filter _ _ _ ht
  · rw [getGroupMemories_fst]
    refine ⟨getMemoriesList_length_le _ _ _, ?_, getMemoriesList_sorted _ _ _⟩
    rintro t rfl ht
    exact getMemoriesList_type_filter _ _ _ ht

theorem get_memories_order_witness :
    (getMemories emptyStore "g" "u" 10 none 1).1.length ≤ 10 :=
  (get_memories_order_spec emptyStore "g" "u" 10 none 1).1.1

theorem applyTypeFilter_eq (ms : List Memory) (mt : Option String) :
    applyTypeFilter ms mt =
      match pyTruthy mt with
      | some t => ms.filter (fun m => m.type == t)
      | none => ms := by
  cases mt with
  | none => rfl
  | some t =>
    by_cases ht : t = ""
    · simp [applyTypeFilter, pyTruthy, ht]
    · simp [applyTypeFilter, pyTruthy, ht]

theorem length_filter_not_add {α : Type} (l : List α) (p : α → Bool) :
    (l.filter p).length + (l.filter (fun x => !(p x))).length = l.length := by
  induction l with
  | nil => rfl
  | cons a l ih =>
    cases hp : p a
    · simp only [List.filter_cons, hp, Bool.not_false, if_pos, if_neg, List.length_cons,
        Bool.false_eq_true, ite_false, ite_true]
      omega
    · simp only [List.filter_cons, hp, Bool.not_true, List.length_cons,
        Bool.false_eq_true, ite_false, ite_true]
      omega

theorem filter_append_filter_perm {α : Type} (l : List α) (p q : α → Bool)
    (hdisj : ∀ x, ¬(p x = true ∧ q x = true)) :
    (l.filter p ++ l.filter q).Perm (l.filter (fun x => p x || q x)) := by
  induction l with
  | nil => simp
  | cons a l ih =>
    cases hp : p a
    · cases hq : q a
      · simp only [List.filter_cons, hp, hq, Bool.false_or, Bool.false_eq_true,
          ite_false]
        exact ih
      · simp only [List.filter_cons, hp, hq, Bool.false_or, Bool.false_eq_true,
          ite_false, ite_true]
        exact (List.perm_middle).trans (List.Perm.cons a ih)
    · have hq : q a = false := by
        cases hqa : q a
        · rfl
        · exact absurd ⟨hp, hqa⟩ (hdisj a)
      simp only [List.filter_cons, hp, hq, Bool.true_or, Bool.false_eq_true,
        ite_false, ite_true, List.cons_append]
      exact List.Perm.cons a ih

theorem deleteMemoriesCore_keyword (ms : List Memory) (target : String)
    (mt : Option String) (hne : target ≠ "all") :
    (deleteMemoriesCore ms target mt).1 =
      ((applyTypeFilter ms mt).filter
        (fun m => pyIn (pyLower target) (pyLower m.content))).length ∧
    ((deleteMemoriesCore ms target mt).2).Perm
      (ms.filter (fun m =>
        !(inTypeFilter m mt && pyIn (pyLower target) (pyLower m.content)))) := by
  have hcount := length_filter_not_add (applyTypeFilter ms mt)
    (fun m => pyIn (pyLower target) (pyLower m.content))
  unfold deleteMemoriesCore
  rw [if_neg hne]
  cases hmt : pyTruthy mt with
  | none =>
    have hfilter : applyTypeFilter ms mt = ms := by rw [applyTypeFilter_eq, hmt]
    constructor
    · simp only [hfilter] at hcount ⊢
      omega
    · simp only [hfilter, inTypeFilter, hmt, Bool.true_and]
      exact List.Perm.refl _
  | some t =>
    have hfilter : applyTypeFilter ms mt = ms.filter (fun m => m.type == t) := by
      rw [applyTypeFilter_eq, hmt]
    constructor
    · simp only [hfilter] at hcount ⊢
      omega
    · simp only [hfilter, inTypeFilter, hmt, List.filter_filter]
      refine (filter_append_filter_perm ms (fun m => !(m.type == t))
        (fun m => (!(pyIn (pyLower target) (pyLower m.content))) && (m.type == t))
        (fun m => ?_)).trans (List.Perm.of_eq (List.filter_congr (fun m _ => ?_)))
      · rintro ⟨h1, h2⟩
        simp only [Bool.and_eq_true] at h1 h2
        simp only [h2.2, Bool.not_true] at h1
        exact absurd h1 (by simp)
      · cases hty : (m.type == t) <;>
          cases hin : pyIn (pyLower target) (pyLower m.content) <;> simp [hty, hin]

theorem deleteMemoriesCore_all (ms : List Memory) (mt : Option String) :
    (deleteMemoriesCore ms "all" mt).1 = (applyTypeFilter ms mt).length ∧
    (deleteMemoriesCore ms "all" mt).2 = ms.filter (fun m => !(inTypeFilter m mt)) := by
  unfold deleteMemoriesCore
  rw [if_pos rfl]
  cases hmt : pyTruthy mt with
  | none =>
    refine ⟨rfl, ?_⟩
    simp [inTypeFilter, hmt]
  | some t =>
    refine ⟨rfl, ?_⟩
    simp [inTypeFilter, hmt]

theorem loadGroupData_files (store : Store) (gid : String) (now : ℚ) :
    (loadGroupData store gid now).2.files = store.files := by
  unfold loadGroupData
  cases h1 : store.cache.lookup gid with
  | some d => simp [h1]
  | none =>
    cases h2 : store.files.lookup (sanitizeGroupId gid) with
    | some d => simp [h1, h2]
    | none => simp [h1, h2]

theorem deleteMemories_files_of_zero (store : Store) (gid uid target : String)
    (mt : Option String) (now : ℚ)
    (h : (deleteMemories store gid uid target mt now).1 = 0) :
    ((deleteMemories store gid uid target mt now).2).files = store.files := by
  have hfiles := loadGroupData_files store gid now
  unfold deleteMemories at h ⊢
  cases hl : (loadGroupData store gid now).1.users.lookup uid with
  | none => simp [hl, hfiles]
  | some ms =>
    simp only [hl] at h ⊢
    rw [if_neg (by omega)]
    exact hfiles

theorem deleteGroupMemories_files_of_zero (store : Store) (gid target : String)
    (mt : Option String) (now : ℚ)
    (h : (deleteGroupMemories store gid target mt now).1 = 0) :
    ((deleteGroupMemories store gid target mt now).2).files = store.files := by
  have hfiles := loadGroupData_files store gid now
  unfold deleteGroupMemories at h ⊢
  cases hl : (loadGroupData store gid now).1.groupMemories with
  | none => simp [hl, hfiles]
  | some ms =>
    simp only [hl] at h ⊢
    rw [if_neg (by omega)]
    exact hfiles

/-- C6: with a keyword target other than `"all"`, `delete_memories` /
`delete_group_memories` remove exactly the memories within the (truthy) type
filter whose lowercased content contains the lowercased target, keep every
other memory, and return the number removed; with target `"all"` every memory
matching the filter is removed and counted.  A call returning 0 does not
rewrite the on-disk file. -/
theorem delete_memories_spec :
    (∀ (ms : List Memory) (target : String) (mt : Option String), target ≠ "all" →
      (deleteMemoriesCore ms target mt).1 =
        ((applyTypeFilter ms mt).filter
          (fun m => pyIn (pyLower target) (pyLower m.content))).length ∧
      ((deleteMemoriesCore ms target mt).2).Perm
        (ms.filter (fun m =>
          !(inTypeFilter m mt && pyIn (pyLower target) (pyLower m.content))))) ∧
    (∀ (ms : List Memory) (mt : Option String),
      (deleteMemoriesCore ms "all" mt).1 = (applyTypeFilter ms mt).length ∧
      (deleteMemoriesCore ms "all" mt).2 = ms.filter (fun m => !(inTypeFilter m mt))) ∧
    (∀ (store : Store) (gid uid target : String) (mt : Option String) (now : ℚ),
      (deleteMemories store gid uid target mt now).1 = 0 →
      ((deleteMemories store gid uid target mt now).2).files = store.files) ∧
    (∀ (store : Store) (gid target : String) (mt : Option String) (now : ℚ),
      (deleteGroupMemories store gid target mt now).1 = 0 →
      ((deleteGroupMemories store gid target mt now).2).files = store.files) :=
  ⟨deleteMemoriesCore_keyword, deleteMemoriesCore_all,
    deleteMemories_files_of_zero, deleteGroupMemories_files_of_zero⟩

theorem delete_memories_witness :
    ("beta" ≠ "all") ∧
    (deleteMemoriesCore [exFact, exMeme] "beta" none).1 =
      ((applyTypeFilter [exFact, exMeme] none).filter
        (fun m => pyIn (pyLower "beta") (pyLower m.content))).length :=
  ⟨by decide, (delete_memories_spec.1 [exFact, exMeme] "beta" none (by decide)).1⟩

theorem isValidType_eq_false {t : String}
    (h1 : t ≠ "instruction") (h2 : t ≠ "preference") (h3 : t ≠ "fact")
    (h4 : t ≠ "meme") :
    isValidType t = false := by
  have b1 : (t == "instruction") = false := by simp [h1]
  have b2 : (t == "preference") = false := by simp [h2]
  have b3 : (t == "fact") = false := by simp [h3]
  have b4 : (t == "meme") = false := by simp [h4]
  simp [isValidType, TYPE_PRIORITY, List.lookup, b1, b2, b3, b4]

/-- C9: for a memory type outside
`{"instruction", "preference", "fact", "meme"}`, `add_memory` and
`add_group_memory` return `False` with the store (cache and files) completely
unchanged: the validity check precedes every load, cache update and file
write. -/
theorem add_memory_invalid_type_spec (store : Store)
    (gid uid memoryType content mid : String) (cap : Nat) (now : ℚ)
    (h1 : memoryType ≠ "instruction") (h2 : memoryType ≠ "preference")
    (h3 : memoryType ≠ "fact") (h4 : memoryType ≠ "meme") :
    addMemory store gid uid memoryType content mid cap now = (false, store) ∧
    addGroupMemory store gid memoryType content mid cap now = (false, store) := by
  have hv := isValidType_eq_false h1 h2 h3 h4
  constructor
  · simp [addMemory, hv]
  · simp [addGroupMemory, hv]

theorem add_memory_invalid_type_witness :
    ("banana" ≠ "instruction") ∧
    addMemory emptyStore "g" "u" "banana" "x" "id" 20 1 = (false, emptyStore) :=
  ⟨by decide,
    (add_memory_invalid_type_spec emptyStore "g" "u" "banana" "x" "id" 20 1
      (by decide) (by decide) (by decide) (by decide)).1⟩

/-- C4: `_save_history` with `force=False` inside the debounce window
(`now - _last_save_time < _SAVE_DEBOUNCE`) performs no write and only sets
`_pending_save`; with `force=True` it always attempts the write; and a
successful write resets `_pending_save` and sets `_last_save_time` to `now`. -/
theorem save_history_debounce_spec (st : HistoryState) (force : Bool) (now : ℚ)
    (writeOk : Bool) :
    (force = false → now - st.lastSaveTime < SAVE_DEBOUNCE →
      saveHistory st force now writeOk = ({ st with pendingSave := true }, false)) ∧
    (force = true → (saveHistory st true now writeOk).2 = true) ∧
    ((saveHistory st force now writeOk).2 = true → writeOk = true →
      (saveHistory st force now writeOk).1.pendingSave = false ∧
      (saveHistory st force now writeOk).1.lastSaveTime = now) := by
  refine ⟨?_, ?_, ?_⟩
  · rintro rfl hlt
    simp [saveHistory, hlt]
  · rintro rfl
    cases writeOk <;> simp [saveHistory]
  · intro hatt hwr
    subst hwr
    unfold saveHistory at hatt ⊢
    split at hatt
    · simp at hatt
    · rename_i hcond
      rw [if_neg hcond]
      simp

theorem save_history_debounce_witness :
    ((false : Bool) = false) ∧ ((3 : ℚ) - 0 < SAVE_DEBOUNCE) ∧
    saveHistory
        { groupHistory := [], lastSaveTime := 0, pendingSave := false,
          savedFile := none } false 3 true =
      ({ groupHistory := [], lastSaveTime := 0, pendingSave := true,
          savedFile := none }, false) :=
  ⟨rfl, by norm_num [SAVE_DEBOUNCE],
    (save_history_debounce_spec
      { groupHistory := [], lastSaveTime := 0, pendingSave := false,
        savedFile := none } false 3 true).1 rfl (by norm_num [SAVE_DEBOUNCE])⟩

theorem lookup_userCacheErase (c : UserCache) (oid : String) :
    (userCacheErase c oid).lookup oid = none := by
  induction c with
  | nil => rfl
  | cons e rest ih =>
    obtain ⟨k, nick, t⟩ := e
    unfold userCacheErase at ih ⊢
    rw [List.filter_cons]
    by_cases he : k = oid
    · rw [if_neg (by simp [he])]
      exact ih
    · rw [if_pos (by simp [he])]
      have hb : (oid == k) = false := by simp [Ne.symm he]
      simp only [List.lookup, hb]
      exact ih

theorem userCacheErase_length_lt (c : UserCache) (oid : String)
    (v : String × ℚ) (hl : c.lookup oid = some v) :
    (userCacheErase c oid).length < c.length := by
  induction c with
  | nil => simp [List.lookup] at hl
  | cons e rest ih =>
    obtain ⟨k, nick, t⟩ := e
    unfold userCacheErase at ih ⊢
    rw [List.filter_cons]
    by_cases he : k = oid
    · rw [if_neg (by simp [he])]
      have := List.length_filter_le (fun e => !(e.1 == oid)) rest
      simp only [List.length_cons]
      omega
    · rw [if_pos (by simp [he])]
      have hb : (oid == k) = false := by simp [Ne.symm he]
      simp only [List.lookup, hb] at hl
      simp only [List.length_cons]
      exact Nat.succ_lt_succ (ih hl)

theorem getUserFromCache_expired (c : UserCache) (oid : String) (now : ℚ)
    (nick : String) (t : ℚ) (hl : c.lookup oid = some (nick, t))
    (hexp : CACHE_TTL ≤ now - t) :
    (getUserFromCache c oid now).1 = none ∧
    ((getUserFromCache c oid now).2).lookup oid = none := by
  have hv : isCacheValid now t = false := by
    simp only [isCacheValid, decide_eq_false_iff_not, not_lt]
    exact hexp
  simp only [getUserFromCache, hl, hv, Bool.false_eq_true, ite_false]
  exact ⟨trivial, lookup_userCacheErase c oid⟩

theorem getUserFromCache_length (c : UserCache) (oid : String) (now : ℚ) :
    ((getUserFromCache c oid now).2).length ≤ c.length := by
  cases hl : c.lookup oid with
  | none => simp [getUserFromCache, hl]
  | some e =>
    by_cases hv : isCacheValid now e.2 = true
    · simp only [getUserFromCache, hl, hv, ite_true,
        List.length_append, List.length_cons, List.length_nil]
      have := userCacheErase_length_lt c oid e hl
      omega
    · simp only [getUserFromCache, hl, hv, Bool.false_eq_true, ite_false]
      have := List.length_filter_le (fun e => !(e.1 == oid)) c
      simpa [userCacheErase] using this

theorem evictUserCacheFront_length_lt (c : UserCache) :
    (evictUserCacheFront c).length < USER_CACHE_MAX_SIZE := by
  induction c with
  | nil => decide
  | cons e rest ih =>
    unfold evictUserCacheFront
    by_cases h : (e :: rest).length ≥ USER_CACHE_MAX_SIZE
    · rw [if_pos h]
      exact ih
    · rw [if_neg h]
      exact Nat.lt_of_not_le h

theorem setUserCache_length (c : UserCache) (oid nick : String) (now : ℚ) :
    (setUserCache c oid nick now).length ≤ USER_CACHE_MAX_SIZE := by
  unfold setUserCache
  simp only [List.length_append, List.length_cons, List.length_nil]
  have := evictUserCacheFront_length_lt (userCacheErase c oid)
  omega

/-- C5: `_get_user_from_cache` never returns an entry stored `_CACHE_TTL = 300`
or more seconds ago and deletes such an expired entry on lookup; lookups never
grow the cache; and `_set_user_cache` evicts from the front of the ordered
mapping before inserting, so the cache size never exceeds
`_USER_CACHE_MAX_SIZE = 5000` after an insertion. -/
theorem user_cache_spec :
    (∀ (c : UserCache) (oid : String) (now : ℚ) (nick : String) (t : ℚ),
      c.lookup oid = some (nick, t) → CACHE_TTL ≤ now - t →
        (getUserFromCache c oid now).1 = none ∧
        ((getUserFromCache c oid now).2).lookup oid = none) ∧
    (∀ (c : UserCache) (oid : String) (now : ℚ),
      ((getUserFromCache c oid now).2).length ≤ c.length) ∧
    (∀ (c : UserCache) (oid nick : String) (now : ℚ),
      (setUserCache c oid nick now).length ≤ USER_CACHE_MAX_SIZE) ∧
    CACHE_TTL = 300 ∧ USER_CACHE_MAX_SIZE = 5000 :=
  ⟨getUserFromCache_expired, getUserFromCache_length, setUserCache_length, rfl, rfl⟩

theorem user_cache_witness :
    (([("u", "nick", 0)] : UserCache).lookup "u" = some ("nick", 0)) ∧
    (CACHE_TTL ≤ (300 : ℚ) - 0) ∧
    (getUserFromCache [("u", "nick", 0)] "u" 300).1 = none :=
  ⟨rfl, by norm_num [CACHE_TTL],
    (user_cache_spec.1 [("u", "nick", 0)] "u" 300 "nick" 0 rfl
      (by norm_num [CACHE_TTL])).1⟩

/-- C7: `update_card` with no created card returns `False` without issuing a
request; with a card, a non-forced call skips the patch (returning `True`)
exactly when both fewer than `UPDATE_INTERVAL = 0.3` seconds have elapsed and
fewer than `MIN_UPDATE_CHARS = 5` characters have been added since the last
recorded update; and `_last_update_time` / `_last_update_length` advance
exactly on a successful patch. -/
theorem update_card_throttle_spec (st : CardState) (text : String) (force : Bool)
    (now : ℚ) (patchOk : Bool) :
    (st.cardMessageId = none →
      updateCard st text force now patchOk =
        { returned := false, state := st, attemptedPatch := false }) ∧
    (st.cardMessageId ≠ none →
      ((updateCard st text force now patchOk).attemptedPatch = false ↔
        (force = false ∧ now - st.lastUpdateTime < UPDATE_INTERVAL ∧
          (text.length : ℤ) - (st.lastUpdateLength : ℤ) < (MIN_UPDATE_CHARS : ℤ))) ∧
      ((updateCard st text force now patchOk).attemptedPatch = false →
        (updateCard st text force now patchOk).returned = true ∧
        (updateCard st text force now patchOk).state.lastUpdateTime =
          st.lastUpdateTime ∧
        (updateCard st text force now patchOk).state.lastUpdateLength =
          st.lastUpdateLength)) ∧
    ((updateCard st text force now patchOk).attemptedPatch = true → patchOk = true →
      (updateCard st text force now patchOk).state.lastUpdateTime = now ∧
      (updateCard st text force now patchOk).state.lastUpdateLength = text.length ∧
      (updateCard st text force now patchOk).returned = true) ∧
    ((updateCard st text force now patchOk).attemptedPatch = true → patchOk = false →
      (updateCard st text force now patchOk).state.lastUpdateTime =
        st.lastUpdateTime ∧
      (updateCard st text force now patchOk).state.lastUpdateLength =
        st.lastUpdateLength ∧
      (updateCard st text force now patchOk).returned = false) := by
  cases hid : st.cardMessageId with
  | none =>
    have hb : updateCard st text force now patchOk =
        { returned := false, state := st, attemptedPatch := false } := by
      unfold updateCard
      rw [hid]
    refine ⟨fun _ => hb, fun hne => absurd rfl hne, ?_, ?_⟩
    · rw [hb]
      intro h _
      simp at h
    · rw [hb]
      intro h _
      simp at h
  | some cid =>
    by_cases hc : (!force && decide (now - st.lastUpdateTime < UPDATE_INTERVAL)
        && decide ((text.length : ℤ) - (st.lastUpdateLength : ℤ)
          < (MIN_UPDATE_CHARS : ℤ))) = true
    · have hb : updateCard st text force now patchOk =
          { returned := true, state := { st with contentBuffer := text },
            attemptedPatch := false } := by
        unfold updateCard
        rw [hid, if_pos hc]
      have hprops : force = false ∧ now - st.lastUpdateTime < UPDATE_INTERVAL ∧
          (text.length : ℤ) - (st.lastUpdateLength : ℤ) < (MIN_UPDATE_CHARS : ℤ) := by
        simpa [Bool.and_eq_true, Bool.not_eq_true', decide_eq_true_eq,
          and_assoc] using hc
      refine ⟨fun h => absurd h (by simp), fun _ => ⟨?_, fun _ => ?_⟩, ?_, ?_⟩
      · rw [hb]
        simpa using hprops
      · rw [hb]
        exact ⟨rfl, rfl, rfl⟩
      · rw [hb]
        intro h _
        simp at h
      · rw [hb]
        intro h _
        simp at h
    · cases hp : patchOk with
      | true =>
        have hb : updateCard st text force now true =
            { returned := true,
              state :=
                { st with contentBuffer := text, lastUpdateTime := now,
                          lastUpdateLength := text.length },
              attemptedPatch := true } := by
          unfold updateCard
          rw [hid, if_neg hc, if_pos rfl]
        refine ⟨fun h => absurd h (by simp),
          fun _ => ⟨?_, fun hf => ?_⟩, fun _ _ => ?_, fun _ hpf => ?_⟩
        · rw [hb]
          constructor
          · intro h
            simp at h
          · intro hps
            exfalso
            apply hc
            simp only [Bool.and_eq_true, Bool.not_eq_true', decide_eq_true_eq]
            exact ⟨⟨hps.1, hps.2.1⟩, hps.2.2⟩
        · rw [hb] at hf
          simp at hf
        · rw [hb]
          exact ⟨rfl, rfl, rfl⟩
        · simp at hpf
      | false =>
        have hb : updateCard st text force now false =
            { returned := false, state := { st with contentBuffer := text },
              attemptedPatch := true } := by
          unfold updateCard
          rw [hid, if_neg hc, if_neg (by simp)]
        refine ⟨fun h => absurd h (by simp),
          fun _ => ⟨?_, fun hf => ?_⟩, fun _ hpt => ?_, fun _ _ => ?_⟩
        · rw [hb]
          constructor
          · intro h
            simp at h
          · intro hps
            exfalso
            apply hc
            simp only [Bool.and_eq_true, Bool.not_eq_true', decide_eq_true_eq]
            exact ⟨⟨hps.1, hps.2.1⟩, hps.2.2⟩
        · rw [hb] at hf
          simp at hf
        · simp at hpt
        · rw [hb]
          exact ⟨rfl, rfl, rfl⟩

theorem update_card_throttle_witness :
    (exCard.cardMessageId ≠ none) ∧
    ((updateCard exCard "ab" false (1 / 10) true).attemptedPatch = false ↔
      ((false : Bool) = false ∧ (1 : ℚ) / 10 - exCard.lastUpdateTime < UPDATE_INTERVAL ∧
        (("ab".length : ℤ) - (exCard.lastUpdateLength : ℤ) < (MIN_UPDATE_CHARS : ℤ)))) :=
  ⟨by simp [exCard],
    ((update_card_throttle_spec exCard "ab" false (1 / 10) true).2.1
      (by simp [exCard])).1⟩

/-- C10 counterexample: the claim says `_clean_content` returns the stripped
input unchanged whenever the parse result is not a non-empty list containing a
dict whose `"type"` value (lowercased) is a recognized component type.  On the
input `"[\x7b\"type\": 5\x7d]"` — which parses to a list whose only dict has
the number `5` as its `"type"` value — `_is_astrbot_message_format` computes
`item.get("type", "").lower()` on a non-string and raises `AttributeError`
(modelled as `none`), so `_clean_content` does not return the stripped input. -/
theorem clean_content_counterexample :
    exParse (pyStrip badStr) = some badJson ∧
    isAstrbotMessageFormat badJson = Except.error () ∧
    cleanContentF exParse 5 badStr = none ∧
    cleanContentF exParse 5 badStr ≠ some (pyStrip badStr) := by
  have hnone : cleanContentF exParse 5 badStr = none := rfl
  refine ⟨rfl, rfl, hnone, ?_⟩
  intro h
  rw [hnone] at h
  exact Option.noConfusion h

/-- C10 (amended): `_clean_content` returns the whitespace-stripped input
unchanged whenever the stripped input is longer than
`_CLEAN_CONTENT_MAX_LEN = 10000`, does not start with `"["`, fails to parse as
JSON, or parses to a value the format check classifies as non-AstrBot-format
without raising (the check raises `AttributeError` when it reaches a dict item
whose `"type"` value is not a string before finding a recognized one, and
`_clean_content` propagates that exception instead of returning); and whenever
`_clean_content` does return and the stripped input is non-empty, the returned
string is non-empty (empty extraction falls back to the stripped input). -/
theorem clean_content_spec (parse : String → Option Json) (s : String) (fuel : Nat) :
    (s ≠ "" → (pyStrip s).length > CLEAN_CONTENT_MAX_LEN →
      cleanContentF parse (fuel + 1) s = some (pyStrip s)) ∧
    (s ≠ "" → pyStartsWith (pyStrip s) "[" = false →
      cleanContentF parse (fuel + 1) s = some (pyStrip s)) ∧
    (s ≠ "" → (pyStrip s).length ≤ CLEAN_CONTENT_MAX_LEN →
      parse (pyStrip s) = none →
      cleanContentF parse (fuel + 1) s = some (pyStrip s)) ∧
    (∀ j, s ≠ "" → (pyStrip s).length ≤ CLEAN_CONTENT_MAX_LEN →
      parse (pyStrip s) = some j → isAstrbotMessageFormat j = Except.ok false →
      cleanContentF parse (fuel + 1) s = some (pyStrip s)) ∧
    (∀ r, cleanContentF parse fuel s = some r → pyStrip s ≠ "" → r ≠ "") := by
  refine ⟨?_, ?_, ?_, ?_, ?_⟩
  · intro hne hlen
    rw [cleanContentF, cleanRun, if_neg hne, if_pos hlen]
  · intro hne hsw
    rw [cleanContentF, cleanRun, if_neg hne]
    by_cases hlen : (pyStrip s).length > CLEAN_CONTENT_MAX_LEN
    · rw [if_pos hlen]
    · rw [if_neg hlen, if_pos (by simp [hsw])]
  · intro hne hlen hparse
    rw [cleanContentF, cleanRun, if_neg hne, if_neg (by omega)]
    by_cases hsw : pyStartsWith (pyStrip s) "[" = true
    · rw [if_neg (by simp [hsw]), hparse]
    · rw [if_pos (by simp [Bool.not_eq_true] at hsw ⊢; exact hsw)]
  · intro j hne hlen hparse hfmt
    rw [cleanContentF, cleanRun, if_neg hne, if_neg (by omega)]
    by_cases hsw : pyStartsWith (pyStrip s) "[" = true
    · rw [if_neg (by simp [hsw]), hparse]
      simp only [hfmt]
    · rw [if_pos (by simp [Bool.not_eq_true] at hsw ⊢; exact hsw)]
  · intro r h hst
    cases fuel with
    | zero => simp [cleanContentF, cleanRun] at h
    | succ n =>
      rw [cleanContentF, cleanRun] at h
      by_cases hs : s = ""
      · rw [if_pos hs] at h
        rw [hs] at hst
        exact absurd (by decide) hst
      · rw [if_neg hs] at h
        split at h
        · exact (Option.some.inj h) ▸ hst
        · split at h
          · exact (Option.some.inj h) ▸ hst
          · split at h
            · exact (Option.some.inj h) ▸ hst
            · split at h
              · exact Option.noConfusion h
              · exact (Option.some.inj h) ▸ hst
              · split at h
                · exact Option.noConfusion h
                · rw [← Option.some.inj h]
                  split
                  · exact hst
                  · rename_i h0
                    exact h0

theorem clean_content_witness :
    ("hello" ≠ "") ∧ (pyStartsWith (pyStrip "hello") "[" = false) ∧
    cleanContentF exParse 4 "hello" = some (pyStrip "hello") :=
  ⟨by decide, by decide,
    (clean_content_spec exParse "hello" 3).2.1 (by decide) (by decide)⟩

end LarkEnhance
